import Mathlib

/-!
Verification of the `andor` filter-expression engine: a shallow embedding of
its tokenizer, recursive-descent parser and evaluator, together with theorems
about the properties the specification states.

The embedding follows the source code closely:
- `tokenize` mirrors `Tokenizer` (src/source/tokenizer/tokenizer.ts): cursor
  state is `ScanState` (remaining characters plus position/line/column), and
  the do/while loop of `Tokenizer.tokenize` becomes `tokenizeFrom`, driven by
  a fuel argument that is proven sufficient.
- `parse` mirrors `Parser` (src/source/parser/parser.ts): the grammar methods
  become mutually recursive functions on a fuel argument; the non-null token
  assertions of the source become an explicit `crash` outcome, proven
  unreachable.
- `ExpressionEvaluator.eval` mirrors the evaluator (src/source/evaluator).
-/

deriving instance DecidableEq for Except

namespace Andor

/-- Token types for the filter expression grammar, as in tokenizer.ts. -/
inductive TokenType where
  | IDENTIFIER
  | AND
  | OR
  | NOT
  | LEFT_PAREN
  | RIGHT_PAREN
  | EOF
deriving DecidableEq

/-- A single token in the input stream (interface Token). -/
structure Token where
  type : TokenType
  value : String
  position : Nat
  line : Nat
  column : Nat
deriving DecidableEq

/-- The tokenizer error value (class TokenizerError). -/
structure TokenizerError where
  message : String
  position : Nat
  line : Nat
  column : Nat
deriving DecidableEq

/-- The tokenizer's private cursor state: the not-yet-consumed suffix of the
input together with the `#position`, `#line` and `#column` fields. -/
structure ScanState where
  rest : List Char
  position : Nat
  line : Nat
  column : Nat
deriving DecidableEq

/-- Whitespace test from src/source/tokenizer/helpers.ts. -/
def isWhitespace (c : Char) : Bool :=
  c == ' ' || c == '\t' || c == '\n' || c == '\r'

/-- `Tokenizer.#skipWhitespace`: space and tab advance the column, a newline
advances the line, and a carriage return consumes an immediately following
newline as part of the same terminator. -/
def skipWhitespaceAux : List Char → Nat → Nat → Nat → ScanState
  | [], pos, line, col => ⟨[], pos, line, col⟩
  | '\r' :: '\n' :: rest, pos, line, _col => skipWhitespaceAux rest (pos + 2) (line + 1) 1
  | c :: rest, pos, line, col =>
    if c == ' ' || c == '\t' then skipWhitespaceAux rest (pos + 1) line (col + 1)
    else if c == '\n' then skipWhitespaceAux rest (pos + 1) (line + 1) 1
    else if c == '\r' then skipWhitespaceAux rest (pos + 1) (line + 1) 1
    else ⟨c :: rest, pos, line, col⟩

def skipWhitespace (s : ScanState) : ScanState :=
  skipWhitespaceAux s.rest s.position s.line s.column

/-- `Tokenizer.#readIdentifier`: reads the maximal run of characters that are
neither whitespace nor parentheses, advancing the cursor past it. -/
def readIdentifierAux : List Char → Nat → Nat → Nat → List Char × ScanState
  | [], pos, line, col => ([], ⟨[], pos, line, col⟩)
  | c :: rest, pos, line, col =>
    if isWhitespace c || c == '(' || c == ')' then
      ([], ⟨c :: rest, pos, line, col⟩)
    else
      let r := readIdentifierAux rest (pos + 1) line (col + 1)
      (c :: r.1, r.2)

/-- The loop condition of `#readIdentifier`: characters that end an
identifier run (whitespace and parentheses). -/
def isStopChar (c : Char) : Bool :=
  isWhitespace c || c == '(' || c == ')'

/-- `Tokenizer.#matchKeyword`: lowercase-folded comparison against the three
keywords (`toLocaleLowerCase` lowercases each character). -/
def matchKeyword (ident : String) : Option TokenType :=
  if ident.data.map Char.toLower = "and".data then some .AND
  else if ident.data.map Char.toLower = "or".data then some .OR
  else if ident.data.map Char.toLower = "not".data then some .NOT
  else none

/-- Text of the current character for the defensive error message
(`null` when at end of input, as JS string interpolation renders it). -/
def headCharText : List Char → String
  | [] => "null"
  | c :: _ => String.mk [c]

/-- `Tokenizer.#readIdentifierOrKeyword`: read a run, fail defensively when it
is empty, otherwise classify it as keyword or identifier. The emitted token
carries the start position and the original-case text. -/
def readIdentifierOrKeyword (s : ScanState) : Except TokenizerError (Token × ScanState) :=
  let r := readIdentifierAux s.rest s.position s.line s.column
  let value := String.mk r.1
  if value.length = 0 then
    .error ⟨"Unexpected character '" ++ headCharText r.2.rest ++ "'",
            r.2.position, r.2.line, r.2.column⟩
  else
    match matchKeyword value with
    | none => .ok (⟨.IDENTIFIER, value, s.position, s.line, s.column⟩, r.2)
    | some kt => .ok (⟨kt, value, s.position, s.line, s.column⟩, r.2)

/-- `Tokenizer.#nextToken`: skip whitespace, then emit EOF at end of input, a
parenthesis token, or an identifier/keyword run. -/
def nextToken (s : ScanState) : Except TokenizerError (Token × ScanState) :=
  let s1 := skipWhitespace s
  match s1.rest with
  | [] => .ok (⟨.EOF, "", s1.position, s1.line, s1.column⟩, s1)
  | c :: rest =>
    if c == '(' then
      .ok (⟨.LEFT_PAREN, "(", s1.position, s1.line, s1.column⟩,
           ⟨rest, s1.position + 1, s1.line, s1.column + 1⟩)
    else if c == ')' then
      .ok (⟨.RIGHT_PAREN, ")", s1.position, s1.line, s1.column⟩,
           ⟨rest, s1.position + 1, s1.line, s1.column + 1⟩)
    else
      readIdentifierOrKeyword s1

/-- Sentinel for fuel exhaustion of the scanning loop. The fuel chosen in
`tokenize` is proven sufficient, so this value is never produced. -/
def fuelError : TokenizerError :=
  ⟨"Internal: scanning fuel exhausted", 0, 0, 0⟩

/-- The do/while loop of `Tokenizer.tokenize`: emit tokens until EOF. The
fuel argument only bounds the recursion; `tokenize` passes enough of it. -/
def tokenizeFrom : Nat → ScanState → Except TokenizerError (List Token)
  | 0, _ => .error fuelError
  | fuel + 1, s =>
    match nextToken s with
    | .error e => .error e
    | .ok (tok, s') =>
      if tok.type = .EOF then .ok [tok]
      else
        match tokenizeFrom fuel s' with
        | .error e => .error e
        | .ok ts => .ok (tok :: ts)

/-- `tokenize(input)`: runs the scanner from the start of the input. -/
def tokenize (input : String) : Except TokenizerError (List Token) :=
  tokenizeFrom (input.data.length + 1) ⟨input.data, 0, 1, 1⟩

/-- The AST (src/source/ast/interface.ts): a tagged union over four variants.
The constructors are exactly the factory functions of src/source/ast/factory.ts
(`identifier`, `and`, `or`, `not`), which attach the tag with no validation. -/
inductive Expression where
  | identifier (pattern : String)
  | and (left right : Expression)
  | or (left right : Expression)
  | not (expr : Expression)
deriving DecidableEq

/-- The evaluator object (class ExpressionEvaluator): it stores the bound
expression and nothing else. -/
structure ExpressionEvaluator where
  expression : Expression
deriving DecidableEq

/-- `ExpressionEvaluator.#eval` together with the four `#evaluate*` methods:
an identifier is true iff some entity is string-equal to the pattern, the
connectives combine recursively (`&&`, `||`, `!` as in the source). -/
def ExpressionEvaluator.eval : Expression → List String → Bool
  | .identifier pattern, entities => entities.any (fun entity => pattern == entity)
  | .and l r, entities => ExpressionEvaluator.eval l entities && ExpressionEvaluator.eval r entities
  | .or l r, entities => ExpressionEvaluator.eval l entities || ExpressionEvaluator.eval r entities
  | .not e, entities => !(ExpressionEvaluator.eval e entities)

/-- The public `evaluate` method of the evaluator object. -/
def ExpressionEvaluator.evaluate (ev : ExpressionEvaluator) (entities : List String) : Bool :=
  ExpressionEvaluator.eval ev.expression entities

/-- `createEvaluator(expression)`: constructs the evaluator object. -/
def createEvaluator (expression : Expression) : ExpressionEvaluator :=
  ⟨expression⟩

/-- `evaluate(expression, entities)`: constructs an evaluator and runs it. -/
def evaluate (expression : Expression) (entities : List String) : Bool :=
  (ExpressionEvaluator.mk expression).evaluate entities

/-- The parse error value (class ParseError). In the source the positional
fields and `expected`/`actual` are optional but every construction site goes
through `ParseError.fromToken`, which fills all of them. -/
structure ParseError where
  message : String
  position : Nat
  line : Nat
  column : Nat
  expected : String
  actual : String
deriving DecidableEq

/-- The literal name of a token type (JS exposes the union member string). -/
def typeName : TokenType → String
  | .IDENTIFIER => "IDENTIFIER"
  | .AND => "AND"
  | .OR => "OR"
  | .NOT => "NOT"
  | .LEFT_PAREN => "LEFT_PAREN"
  | .RIGHT_PAREN => "RIGHT_PAREN"
  | .EOF => "EOF"

/-- `ParseError.fromToken`: takes position data from the token; `actual` is
`token.value || token.type`, so the type name when the value is empty. -/
def ParseError.fromToken (message : String) (token : Token) (expected : String) : ParseError :=
  ⟨message, token.position, token.line, token.column, expected,
   if token.value = "" then typeName token.type else token.value⟩

/-- Outcome of one parsing method. `crash` models a `#peek` hitting the
non-null assertion with no token present (impossible on tokenizer output,
proven below); `fuelOut` models exhaustion of the recursion fuel, which the
fuel chosen in `parse` never reaches on the inputs of the theorems below. -/
inductive PResult (α : Type) where
  | ok : α → Nat → PResult α
  | error : ParseError → PResult α
  | crash : PResult α
  | fuelOut : PResult α
deriving DecidableEq

/-- `Parser.#peek`: the token at the cursor, if any (the source asserts it
is present; a `none` here surfaces as `crash` in the callers). -/
def peek (tokens : List Token) (cur : Nat) : Option Token :=
  tokens[cur]?

/-- `Parser.#advance`: increment the cursor, clamped at the token count. -/
def advance (tokens : List Token) (cur : Nat) : Nat :=
  if cur < tokens.length then cur + 1 else cur

/-- `Parser.#hasReachedEOF`: whether the current token is EOF. -/
def hasReachedEOF (tokens : List Token) (cur : Nat) : Option Bool :=
  (peek tokens cur).map (fun t => t.type == .EOF)

/-- `Parser.#check`: false at EOF, else compares the current token's type. -/
def check (tokens : List Token) (cur : Nat) (ty : TokenType) : Option Bool :=
  match hasReachedEOF tokens cur with
  | none => none
  | some true => some false
  | some false =>
    match peek tokens cur with
    | none => none
    | some t => some (t.type == ty)

/-- `Parser.#matchesAny` at a single type (every call site passes one):
advance on a match and report whether it happened, with the new cursor. -/
def matchesAny (tokens : List Token) (cur : Nat) (ty : TokenType) : Option (Bool × Nat) :=
  match check tokens cur ty with
  | none => none
  | some true => some (true, advance tokens cur)
  | some false => some (false, cur)

/-- `Parser.#consume`: take a token of the expected type or report a
`ParseError` built from the current token. -/
def consume (tokens : List Token) (cur : Nat) (ty : TokenType) (message : String) : PResult Token :=
  match check tokens cur ty with
  | none => .crash
  | some true =>
    match peek tokens cur with
    | none => .crash
    | some t => .ok t (advance tokens cur)
  | some false =>
    match peek tokens cur with
    | none => .crash
    | some t => .error (ParseError.fromToken message t (typeName ty))

mutual

/-- `Parser.#orExpression`: `or_expr ::= and_expr ( OR and_expr )*`. -/
def orExpression : Nat → List Token → Nat → PResult Expression
  | 0, _, _ => .fuelOut
  | fuel + 1, tokens, cur =>
    match andExpression fuel tokens cur with
    | .ok left cur1 => orLoop fuel tokens left cur1
    | r => r
termination_by structural fuel => fuel

/-- The while-loop of `Parser.#orExpression`, folding `or` left-to-right. -/
def orLoop : Nat → List Token → Expression → Nat → PResult Expression
  | 0, _, _, _ => .fuelOut
  | fuel + 1, tokens, left, cur =>
    match matchesAny tokens cur .OR with
    | none => .crash
    | some (false, _) => .ok left cur
    | some (true, cur1) =>
      match andExpression fuel tokens cur1 with
      | .ok right cur2 => orLoop fuel tokens (.or left right) cur2
      | r => r
termination_by structural fuel => fuel

/-- `Parser.#andExpression`: `and_expr ::= not_expr ( AND not_expr )*`. -/
def andExpression : Nat → List Token → Nat → PResult Expression
  | 0, _, _ => .fuelOut
  | fuel + 1, tokens, cur =>
    match notExpression fuel tokens cur with
    | .ok left cur1 => andLoop fuel tokens left cur1
    | r => r
termination_by structural fuel => fuel

/-- The while-loop of `Parser.#andExpression`, folding `and` left-to-right. -/
def andLoop : Nat → List Token → Expression → Nat → PResult Expression
  | 0, _, _, _ => .fuelOut
  | fuel + 1, tokens, left, cur =>
    match matchesAny tokens cur .AND with
    | none => .crash
    | some (false, _) => .ok left cur
    | some (true, cur1) =>
      match notExpression fuel tokens cur1 with
      | .ok right cur2 => andLoop fuel tokens (.and left right) cur2
      | r => r
termination_by structural fuel => fuel

/-- `Parser.#notExpression`: `not_expr ::= NOT not_expr | primary`,
right-associative through the recursive call before wrapping. -/
def notExpression : Nat → List Token → Nat → PResult Expression
  | 0, _, _ => .fuelOut
  | fuel + 1, tokens, cur =>
    match matchesAny tokens cur .NOT with
    | none => .crash
    | some (true, cur1) =>
      match notExpression fuel tokens cur1 with
      | .ok e cur2 => .ok (.not e) cur2
      | r => r
    | some (false, _) => primary fuel tokens cur
termination_by structural fuel => fuel

/-- `Parser.#primary`: a parenthesized expression, an identifier, or one of
the four error cases distinguished by the unexpected token's type. -/
def primary : Nat → List Token → Nat → PResult Expression
  | 0, _, _ => .fuelOut
  | fuel + 1, tokens, cur =>
    match matchesAny tokens cur .LEFT_PAREN with
    | none => .crash
    | some (true, cur1) =>
      match orExpression fuel tokens cur1 with
      | .ok e cur2 =>
        match consume tokens cur2 .RIGHT_PAREN "Expected ')' after expression" with
        | .ok _ cur3 => .ok e cur3
        | .error er => .error er
        | .crash => .crash
        | .fuelOut => .fuelOut
      | r => r
    | some (false, _) =>
      match check tokens cur .IDENTIFIER with
      | none => .crash
      | some true =>
        match consume tokens cur .IDENTIFIER "Expecte identifier" with
        | .ok t cur1 => .ok (.identifier t.value) cur1
        | .error er => .error er
        | .crash => .crash
        | .fuelOut => .fuelOut
      | some false =>
        match peek tokens cur with
        | none => .crash
        | some token =>
          if token.type = .EOF then
            .error (ParseError.fromToken "Unexpected end of input: expected identifier or \"(\""
              token "identifier or \"(\"")
          else if token.type = .RIGHT_PAREN then
            .error (ParseError.fromToken "Unexpected ')': missing opening parenthesis or expression"
              token "identifier or \"(\"")
          else if token.type = .AND ∨ token.type = .OR then
            .error (ParseError.fromToken ("Unexpected '" ++ token.value ++ "': missing left operand")
              token "identifier or \"(\"")
          else
            .error (ParseError.fromToken ("Unexpected token '" ++ token.value ++ "'")
              token "identifier or \"(\"")
termination_by structural fuel => fuel

end

/-- `Parser.#expression`: the entry rule, delegating to `#orExpression`. -/
def expression (fuel : Nat) (tokens : List Token) (cur : Nat) : PResult Expression :=
  orExpression fuel tokens cur

/-- The recursion fuel `parse` hands to the grammar rules: generous enough
for every token to be processed (each rule either consumes a token within a
bounded number of nested calls or returns). -/
def parseFuel (tokens : List Token) : Nat :=
  4 * tokens.length + 8

/-- The body of `Parser.parse`: reject an immediately-empty stream, parse one
expression, and require the cursor to rest exactly on EOF afterwards. -/
def runParse (tokens : List Token) : PResult Expression :=
  match hasReachedEOF tokens 0 with
  | none => .crash
  | some true =>
    match peek tokens 0 with
    | none => .crash
    | some t =>
      .error (ParseError.fromToken "Unexpected end of input: expected expression" t "expression")
  | some false =>
    match expression (parseFuel tokens) tokens 0 with
    | .ok e cur =>
      match hasReachedEOF tokens cur with
      | none => .crash
      | some true => .ok e cur
      | some false =>
        match peek tokens cur with
        | none => .crash
        | some token =>
          .error (ParseError.fromToken ("Unexpected token '" ++ token.value ++ "'")
            token "end of expression")
    | r => r

/-- Overall outcome of `parse(input)` seen by a caller: the AST, a thrown
`ParseError` or `TokenizerError`, or one of the two artifacts of the
embedding (`crash`, `fuelOut`), both proven unreachable where needed. -/
inductive ParseOutcome where
  | ok : Expression → ParseOutcome
  | parseError : ParseError → ParseOutcome
  | tokenizerError : TokenizerError → ParseOutcome
  | crash : ParseOutcome
  | fuelOut : ParseOutcome
deriving DecidableEq

/-- `parse(input)`: tokenize, then run the parser over the token stream. -/
def parse (input : String) : ParseOutcome :=
  match tokenize input with
  | .error e => .tokenizerError e
  | .ok tokens =>
    match runParse tokens with
    | .ok e _ => .ok e
    | .error e => .parseError e
    | .crash => .crash
    | .fuelOut => .fuelOut

/-- The message of the `ParseError` an input fails with, if it fails so. -/
def parseErrMessage (o : ParseOutcome) : Option String :=
  match o with
  | .parseError e => some e.message
  | _ => none

/-- Well-formedness of a token stream, as the tokenizer guarantees it: a
(possibly empty) run of non-EOF tokens closed by a single EOF token. -/
def WFStream (tokens : List Token) : Prop :=
  ∃ init last, tokens = init ++ [last] ∧ last.type = TokenType.EOF ∧
    ∀ t ∈ init, t.type ≠ TokenType.EOF

/-- Safety of one parsing result with respect to a token list: it is not a
crash (no token lookup hit the non-null assertion with nothing there), and a
successful result leaves the cursor within bounds, i.e. at or before the
index of the final EOF token. -/
@[reducible] def SafeR (tokens : List Token) (r : PResult Expression) : Prop :=
  r ≠ .crash ∧ ∀ e cur', r = .ok e cur' → cur' < tokens.length

/-! ## Theorems -/

/-- C1: The parser produces trees with the spec's precedence (or lower than
and, and lower than not) and associativity (and/or left-associative, not
right-associative): `parse "a or b and c"` is `Or(a, And(b, c))`,
`parse "not a and b"` is `And(Not(a), b)`, `parse "a and b and c"` is
`And(And(a, b), c)`, and `parse "not not a"` is `Not(Not(a))`. -/
theorem parse_precedence_and_associativity :
    parse "a or b and c" =
      .ok (.or (.identifier "a") (.and (.identifier "b") (.identifier "c"))) ∧
    parse "not a and b" =
      .ok (.and (.not (.identifier "a")) (.identifier "b")) ∧
    parse "a and b and c" =
      .ok (.and (.and (.identifier "a") (.identifier "b")) (.identifier "c")) ∧
    parse "not not a" =
      .ok (.not (.not (.identifier "a"))) := by
  refine ⟨?_, ?_, ?_, ?_⟩
  · have h : tokenize "a or b and c" =
        .ok [⟨.IDENTIFIER, "a", 0, 1, 1⟩, ⟨.OR, "or", 2, 1, 3⟩, ⟨.IDENTIFIER, "b", 5, 1, 6⟩,
             ⟨.AND, "and", 7, 1, 8⟩, ⟨.IDENTIFIER, "c", 11, 1, 12⟩, ⟨.EOF, "", 12, 1, 13⟩] := by
      decide
    simp only [parse, h]
    decide
  · have h : tokenize "not a and b" =
        .ok [⟨.NOT, "not", 0, 1, 1⟩, ⟨.IDENTIFIER, "a", 4, 1, 5⟩, ⟨.AND, "and", 6, 1, 7⟩,
             ⟨.IDENTIFIER, "b", 10, 1, 11⟩, ⟨.EOF, "", 11, 1, 12⟩] := by
      decide
    simp only [parse, h]
    decide
  · have h : tokenize "a and b and c" =
        .ok [⟨.IDENTIFIER, "a", 0, 1, 1⟩, ⟨.AND, "and", 2, 1, 3⟩, ⟨.IDENTIFIER, "b", 6, 1, 7⟩,
             ⟨.AND, "and", 8, 1, 9⟩, ⟨.IDENTIFIER, "c", 12, 1, 13⟩, ⟨.EOF, "", 13, 1, 14⟩] := by
      decide
    simp only [parse, h]
    decide
  · have h : tokenize "not not a" =
        .ok [⟨.NOT, "not", 0, 1, 1⟩, ⟨.NOT, "not", 4, 1, 5⟩, ⟨.IDENTIFIER, "a", 8, 1, 9⟩,
             ⟨.EOF, "", 9, 1, 10⟩] := by
      decide
    simp only [parse, h]
    decide

/-- C4: `parse` fails with a `ParseError` carrying exactly the specified
message on the five malformed inputs of the spec: empty input, a leading
`and`, empty parentheses, a stray closing parenthesis, and an unmatched
opening parenthesis. -/
theorem parse_error_messages :
    parseErrMessage (parse "") = some "Unexpected end of input: expected expression" ∧
    parseErrMessage (parse "and slow") = some "Unexpected 'and': missing left operand" ∧
    parseErrMessage (parse "()") = some "Unexpected ')': missing opening parenthesis or expression" ∧
    parseErrMessage (parse "slow and fast)") = some "Unexpected token ')'" ∧
    parseErrMessage (parse "(slow and fast") = some "Expected ')' after expression" := by
  refine ⟨?_, ?_, ?_, ?_, ?_⟩
  · have h : tokenize "" = .ok [⟨.EOF, "", 0, 1, 1⟩] := by decide
    simp only [parse, h]
    decide
  · have h : tokenize "and slow" =
        .ok [⟨.AND, "and", 0, 1, 1⟩, ⟨.IDENTIFIER, "slow", 4, 1, 5⟩, ⟨.EOF, "", 8, 1, 9⟩] := by
      decide
    simp only [parse, h]
    decide
  · have h : tokenize "()" =
        .ok [⟨.LEFT_PAREN, "(", 0, 1, 1⟩, ⟨.RIGHT_PAREN, ")", 1, 1, 2⟩, ⟨.EOF, "", 2, 1, 3⟩] := by
      decide
    simp only [parse, h]
    decide
  · have h : tokenize "slow and fast)" =
        .ok [⟨.IDENTIFIER, "slow", 0, 1, 1⟩, ⟨.AND, "and", 5, 1, 6⟩,
             ⟨.IDENTIFIER, "fast", 9, 1, 10⟩, ⟨.RIGHT_PAREN, ")", 13, 1, 14⟩,
             ⟨.EOF, "", 14, 1, 15⟩] := by
      decide
    simp only [parse, h]
    decide
  · have h : tokenize "(slow and fast" =
        .ok [⟨.LEFT_PAREN, "(", 0, 1, 1⟩, ⟨.IDENTIFIER, "slow", 1, 1, 2⟩,
             ⟨.AND, "and", 6, 1, 7⟩, ⟨.IDENTIFIER, "fast", 10, 1, 11⟩,
             ⟨.EOF, "", 14, 1, 15⟩] := by
      decide
    simp only [parse, h]
    decide

/-- C2: Evaluating an `Identifier` node returns true exactly when some
subject string is literally equal to the pattern (case-sensitive string
equality, `*` being an ordinary character); on the empty subject list the
result is false for every pattern. -/
theorem evaluate_identifier_literal (p : String) (S : List String) :
    (evaluate (.identifier p) S = true ↔ ∃ s ∈ S, s = p) ∧
    evaluate (.identifier p) [] = false := by
  constructor
  · simp only [evaluate, ExpressionEvaluator.evaluate, ExpressionEvaluator.eval,
      List.any_eq_true, beq_iff_eq]
    constructor
    · rintro ⟨s, hs, he⟩
      exact ⟨s, hs, he.symm⟩
    · rintro ⟨s, hs, he⟩
      exact ⟨s, hs, he.symm⟩
  · rfl

/-- C5: `evaluate` is total (a terminating function on every expression tree
and subject list, as its type in this development shows) and satisfies the
compositional boolean equations for `And`, `Or` and `Not`; the source's
short-circuiting `&&`/`||` compute exactly these truth-table operations, so
it never changes an observable result. -/
theorem evaluate_compositional (l r e : Expression) (S : List String) :
    evaluate (.and l r) S = (evaluate l S && evaluate r S) ∧
    evaluate (.or l r) S = (evaluate l S || evaluate r S) ∧
    evaluate (.not e) S = !evaluate e S :=
  ⟨rfl, rfl, rfl⟩

/-- C8: `createEvaluator` is a pure partial-application wrapper: the
evaluator object it returns holds exactly the given expression and its
`evaluate` method agrees with the plain `evaluate` function on every
subject list. -/
theorem createEvaluator_wrapper (e : Expression) (S : List String) :
    (createEvaluator e).evaluate S = evaluate e S ∧
    (createEvaluator e).expression = e :=
  ⟨rfl, rfl⟩

/-- C9: Surrounding whitespace affects neither token types nor values:
`tokenize " a "` and `tokenize "a"` succeed with token sequences of the same
length that agree element-wise in type and value (positions differ). -/
theorem tokenize_whitespace_invariance :
    ∃ ts1 ts2,
      tokenize " a " = .ok ts1 ∧ tokenize "a" = .ok ts2 ∧
      ts1.length = ts2.length ∧
      ts1.map (fun t => (t.type, t.value)) = ts2.map (fun t => (t.type, t.value)) := by
  refine ⟨[⟨.IDENTIFIER, "a", 1, 1, 2⟩, ⟨.EOF, "", 3, 1, 4⟩],
          [⟨.IDENTIFIER, "a", 0, 1, 1⟩, ⟨.EOF, "", 1, 1, 2⟩], by decide, by decide, rfl, rfl⟩

/-! ## Tokenizer invariants -/

theorem skipWhitespaceAux_length (cs : List Char) (p l c : Nat) :
    (skipWhitespaceAux cs p l c).rest.length ≤ cs.length := by
  induction cs, p, l, c using skipWhitespaceAux.induct with
  | case1 p l c => simp [skipWhitespaceAux]
  | case2 rest p l c ih => rw [skipWhitespaceAux]; simp only [List.length_cons]; omega
  | case3 c rest p l col h1 h2 ih =>
    rw [skipWhitespaceAux]
    · simp only [h2, if_true, List.length_cons]; omega
    · exact h1
  | case4 c rest p l col h1 h2 h3 ih =>
    rw [skipWhitespaceAux]
    · simp only [h2, h3, if_true, if_false, Bool.false_eq_true, List.length_cons]; omega
    · exact h1
  | case5 c rest p l col h1 h2 h3 h4 ih =>
    rw [skipWhitespaceAux]
    · simp only [h2, h3, h4, if_true, if_false, Bool.false_eq_true, List.length_cons]; omega
    · exact h1
  | case6 c rest p l col h1 h2 h3 h4 =>
    rw [skipWhitespaceAux]
    · simp [h2, h3, h4]
    · exact h1

theorem skipWhitespaceAux_head (cs : List Char) (p l c : Nat) (d : Char) (ds : List Char)
    (h : (skipWhitespaceAux cs p l c).rest = d :: ds) : isWhitespace d = false := by
  induction cs, p, l, c using skipWhitespaceAux.induct with
  | case1 p l c => simp [skipWhitespaceAux] at h
  | case2 rest p l c ih => rw [skipWhitespaceAux] at h; exact ih h
  | case3 c rest p l col h1 h2 ih =>
    rw [skipWhitespaceAux] at h
    · simp only [h2, if_true] at h; exact ih h
    · exact h1
  | case4 c rest p l col h1 h2 h3 ih =>
    rw [skipWhitespaceAux] at h
    · simp only [h2, h3, if_true, if_false, Bool.false_eq_true] at h; exact ih h
    · exact h1
  | case5 c rest p l col h1 h2 h3 h4 ih =>
    rw [skipWhitespaceAux] at h
    · simp only [h2, h3, h4, if_true, if_false, Bool.false_eq_true] at h; exact ih h
    · exact h1
  | case6 c rest p l col h1 h2 h3 h4 =>
    rw [skipWhitespaceAux] at h
    · simp [h2, h3, h4] at h
      simp [isWhitespace, h.1 ▸ h2, h.1 ▸ h3, h.1 ▸ h4]
    · exact h1

theorem readIdentifierAux_length (cs : List Char) (p l c : Nat) :
    (readIdentifierAux cs p l c).1.length + (readIdentifierAux cs p l c).2.rest.length
      = cs.length := by
  induction cs generalizing p l c with
  | nil => simp [readIdentifierAux]
  | cons ch rest ih =>
    by_cases hstop : (isWhitespace ch || ch == '(' || ch == ')') = true
    · simp [readIdentifierAux, hstop]
    · simp only [Bool.not_eq_true] at hstop
      simp only [readIdentifierAux, hstop, Bool.false_eq_true, if_false, List.length_cons]
      have := ih (p + 1) l (c + 1)
      omega

theorem readIdentifierAux_cons (ch : Char) (rest : List Char) (p l c : Nat)
    (h : (isWhitespace ch || ch == '(' || ch == ')') = false) :
    readIdentifierAux (ch :: rest) p l c =
      (ch :: (readIdentifierAux rest (p + 1) l (c + 1)).1,
       (readIdentifierAux rest (p + 1) l (c + 1)).2) := by
  simp [readIdentifierAux, h]

/-- Every call of `#nextToken` succeeds, yielding either an EOF token with an
empty value or a non-EOF token after consuming at least one character. -/
theorem nextToken_spec (s : ScanState) :
    ∃ tok s', nextToken s = .ok (tok, s') ∧
      ((tok.type = .EOF ∧ tok.value = "") ∨
       (tok.type ≠ .EOF ∧ s'.rest.length < s.rest.length)) := by
  have hle : (skipWhitespace s).rest.length ≤ s.rest.length :=
    skipWhitespaceAux_length s.rest s.position s.line s.column
  rcases hrest : (skipWhitespace s).rest with _ | ⟨c, rest⟩
  · exact ⟨⟨.EOF, "", (skipWhitespace s).position, (skipWhitespace s).line,
      (skipWhitespace s).column⟩, skipWhitespace s,
      by simp only [nextToken, hrest], Or.inl ⟨rfl, rfl⟩⟩
  · have hws : isWhitespace c = false :=
      skipWhitespaceAux_head s.rest s.position s.line s.column c rest hrest
    have hlen : rest.length + 1 ≤ s.rest.length := by
      have h2 := hle
      rw [hrest] at h2
      simpa using h2
    by_cases hc1 : (c == '(') = true
    · refine ⟨⟨.LEFT_PAREN, "(", (skipWhitespace s).position, (skipWhitespace s).line,
        (skipWhitespace s).column⟩,
        ⟨rest, (skipWhitespace s).position + 1, (skipWhitespace s).line,
         (skipWhitespace s).column + 1⟩, ?_, Or.inr ⟨by simp, by simp only []; omega⟩⟩
      simp only [nextToken, hrest, hc1, if_true]
    · by_cases hc2 : (c == ')') = true
      · refine ⟨⟨.RIGHT_PAREN, ")", (skipWhitespace s).position, (skipWhitespace s).line,
          (skipWhitespace s).column⟩,
          ⟨rest, (skipWhitespace s).position + 1, (skipWhitespace s).line,
           (skipWhitespace s).column + 1⟩, ?_, Or.inr ⟨by simp, by simp only []; omega⟩⟩
        simp only [nextToken, hrest, hc1, hc2, Bool.false_eq_true, if_false, if_true]
      · have hstop : (isWhitespace c || c == '(' || c == ')') = false := by
          simp [hws, hc1, hc2]
        have heq : nextToken s = readIdentifierOrKeyword (skipWhitespace s) := by
          simp only [nextToken, hrest, hc1, hc2, Bool.false_eq_true, if_false]
        rcases hr : readIdentifierAux rest ((skipWhitespace s).position + 1)
            (skipWhitespace s).line ((skipWhitespace s).column + 1) with ⟨r1, s2⟩
        have hun : readIdentifierAux (skipWhitespace s).rest (skipWhitespace s).position
            (skipWhitespace s).line (skipWhitespace s).column = (c :: r1, s2) := by
          rw [hrest, readIdentifierAux_cons c rest _ _ _ hstop, hr]
        have hrlen : r1.length + s2.rest.length = rest.length := by
          have h3 := readIdentifierAux_length rest ((skipWhitespace s).position + 1)
            (skipWhitespace s).line ((skipWhitespace s).column + 1)
          rw [hr] at h3
          simpa using h3
        rcases hmk : matchKeyword (String.mk (c :: r1)) with _ | kt
        · refine ⟨⟨.IDENTIFIER, String.mk (c :: r1), (skipWhitespace s).position,
            (skipWhitespace s).line, (skipWhitespace s).column⟩, s2, ?_,
            Or.inr ⟨by simp, by omega⟩⟩
          rw [heq]
          unfold readIdentifierOrKeyword
          rw [hun]
          simp [String.length, hmk]
        · have hkt : kt ≠ TokenType.EOF := by
            unfold matchKeyword at hmk
            split at hmk
            · cases hmk; decide
            · split at hmk
              · cases hmk; decide
              · split at hmk
                · cases hmk; decide
                · cases hmk
          refine ⟨⟨kt, String.mk (c :: r1), (skipWhitespace s).position,
            (skipWhitespace s).line, (skipWhitespace s).column⟩, s2, ?_,
            Or.inr ⟨hkt, by omega⟩⟩
          rw [heq]
          unfold readIdentifierOrKeyword
          rw [hun]
          simp [String.length, hmk]

/-- With fuel exceeding the number of remaining characters, the scanning loop
succeeds and produces a stream of non-EOF tokens closed by one EOF token. -/
theorem tokenizeFrom_spec (fuel : Nat) :
    ∀ s : ScanState, s.rest.length < fuel →
      ∃ init last, tokenizeFrom fuel s = .ok (init ++ [last]) ∧
        last.type = .EOF ∧ last.value = "" ∧ ∀ t ∈ init, t.type ≠ .EOF := by
  induction fuel with
  | zero => intro s h; omega
  | succ n ih =>
    intro s hs
    obtain ⟨tok, s', hnt, hcases⟩ := nextToken_spec s
    rcases hcases with ⟨heof, hval⟩ | ⟨hne, hlt⟩
    · refine ⟨[], tok, ?_, heof, hval, by simp⟩
      simp only [tokenizeFrom]
      rw [hnt]
      simp [heof]
    · have hs' : s'.rest.length < n := by omega
      obtain ⟨init, last, hrec, hlast, hvl, hinit⟩ := ih s' hs'
      refine ⟨tok :: init, last, ?_, hlast, hvl, ?_⟩
      · simp only [tokenizeFrom]
        rw [hnt]
        simp [hne, hrec]
      · intro t ht
        rcases List.mem_cons.mp ht with rfl | hm
        · exact hne
        · exact hinit t hm

/-- C3: For every input string (including empty and whitespace-only ones),
`tokenize` succeeds with a non-empty finite token sequence whose last element
has type EOF and value "", and EOF occurs exactly once, only as the final
element. -/
theorem tokenize_eof_invariant (input : String) :
    ∃ ts, tokenize input = .ok ts ∧ ts ≠ [] ∧
      ∃ init last, ts = init ++ [last] ∧ last.type = .EOF ∧ last.value = "" ∧
        ∀ t ∈ init, t.type ≠ .EOF := by
  obtain ⟨init, last, h, hl, hv, hi⟩ :=
    tokenizeFrom_spec (input.data.length + 1) ⟨input.data, 0, 1, 1⟩ (by simp)
  exact ⟨init ++ [last], h, by simp, init, last, rfl, hl, hv, hi⟩

/-- C7: The TokenizerError branch is unreachable: on every input string the
tokenizer terminates successfully (the defensive empty-run guard never fires,
because after whitespace skipping and the parenthesis cases the current
character always extends the identifier run), so `tokenize` never returns an
error. -/
theorem tokenize_total (input : String) :
    (∃ ts, tokenize input = .ok ts) ∧ ∀ e, tokenize input ≠ .error e := by
  obtain ⟨init, last, h, -, -, -⟩ :=
    tokenizeFrom_spec (input.data.length + 1) ⟨input.data, 0, 1, 1⟩ (by simp)
  refine ⟨⟨init ++ [last], h⟩, fun e he => ?_⟩
  unfold tokenize at he
  rw [h] at he
  exact Except.noConfusion he

theorem skipWhitespaceAux_stay (c : Char) (rest : List Char) (p l co : Nat)
    (h : isWhitespace c = false) :
    skipWhitespaceAux (c :: rest) p l co = ⟨c :: rest, p, l, co⟩ := by
  simp only [isWhitespace, Bool.or_eq_false_iff, beq_eq_false_iff_ne] at h
  obtain ⟨⟨⟨hsp, htab⟩, hnl⟩, hcr⟩ := h
  rw [skipWhitespaceAux]
  · simp [hsp, htab, hnl, hcr]
  · intro r1 hc
    exact absurd hc hcr

theorem readIdentifierAux_all (cs : List Char) (p l co : Nat)
    (h : ∀ c ∈ cs, isStopChar c = false) :
    readIdentifierAux cs p l co = (cs, ⟨[], p + cs.length, l, co + cs.length⟩) := by
  induction cs generalizing p l co with
  | nil => simp [readIdentifierAux]
  | cons c rest ih =>
    have hc : isStopChar c = false := h c (by simp)
    rw [readIdentifierAux_cons c rest p l co (by simpa [isStopChar] using hc)]
    rw [ih (p + 1) l (co + 1) (fun x hx => h x (by simp [hx]))]
    simp only [List.length_cons]
    refine Prod.ext rfl (ScanState.mk.injEq _ _ _ _ _ _ _ _ ▸ ?_)
    simp
    omega

/-- C6: Keyword recognition is case-insensitive but value-preserving and
applies only to whole maximal runs: tokenizing one maximal run (a non-empty
string without whitespace or parentheses) emits a first token whose type is
the keyword selected by lowercase-folded comparison with `and`, `or`, `not`
(and IDENTIFIER otherwise, e.g. for `android`), with the original-case run
as its value. -/
theorem tokenize_keyword_recognition (w : String) (h1 : w ≠ "")
    (h2 : ∀ c ∈ w.data, isStopChar c = false) :
    ∃ rest, tokenize w =
      .ok ({ type := if w.data.map Char.toLower = "and".data then TokenType.AND
                     else if w.data.map Char.toLower = "or".data then TokenType.OR
                     else if w.data.map Char.toLower = "not".data then TokenType.NOT
                     else TokenType.IDENTIFIER,
             value := w, position := 0, line := 1, column := 1 } :: rest) := by
  obtain ⟨data⟩ := w
  rcases data with _ | ⟨c, cs⟩
  · exact absurd rfl h1
  · have hhead : isStopChar c = false := h2 c (by simp)
    have hws : isWhitespace c = false := by
      simp only [isStopChar, Bool.or_eq_false_iff] at hhead
      exact hhead.1.1
    have hc1 : (c == '(') = false := by
      simp only [isStopChar, Bool.or_eq_false_iff] at hhead
      exact hhead.1.2
    have hc2 : (c == ')') = false := by
      simp only [isStopChar, Bool.or_eq_false_iff] at hhead
      exact hhead.2
    have hskip : skipWhitespaceAux (c :: cs) 0 1 1 = ⟨c :: cs, 0, 1, 1⟩ :=
      skipWhitespaceAux_stay c cs 0 1 1 hws
    have hall : readIdentifierAux (c :: cs) 0 1 1 =
        (c :: cs, ⟨[], cs.length + 1, 1, cs.length + 2⟩) := by
      rw [readIdentifierAux_all (c :: cs) 0 1 1 h2]
      simp only [Prod.mk.injEq, ScanState.mk.injEq, List.length_cons]
      refine ⟨trivial, trivial, by omega, trivial, by omega⟩
    have hnt : nextToken ⟨c :: cs, 0, 1, 1⟩ = readIdentifierOrKeyword ⟨c :: cs, 0, 1, 1⟩ := by
      simp only [nextToken, skipWhitespace]
      rw [hskip]
      simp [hc1, hc2]
    obtain ⟨init, last, hrec, -, -, -⟩ := tokenizeFrom_spec (cs.length + 1)
      ⟨[], cs.length + 1, 1, cs.length + 2⟩ (by simp)
    rcases hmk : matchKeyword (String.mk (c :: cs)) with _ | kt
    · have hfin : readIdentifierOrKeyword ⟨c :: cs, 0, 1, 1⟩ =
          .ok (⟨.IDENTIFIER, String.mk (c :: cs), 0, 1, 1⟩,
               ⟨[], cs.length + 1, 1, cs.length + 2⟩) := by
        simp only [readIdentifierOrKeyword]
        rw [hall]
        simp [String.length, hmk]
      have htype : (if List.map Char.toLower (String.mk (c :: cs)).data = "and".data
                      then TokenType.AND
                    else if List.map Char.toLower (String.mk (c :: cs)).data = "or".data
                      then TokenType.OR
                    else if List.map Char.toLower (String.mk (c :: cs)).data = "not".data
                      then TokenType.NOT
                    else TokenType.IDENTIFIER) = TokenType.IDENTIFIER := by
        unfold matchKeyword at hmk
        split at hmk
        · exact absurd hmk (by simp)
        · split at hmk
          · exact absurd hmk (by simp)
          · split at hmk
            · exact absurd hmk (by simp)
            · rename_i hA hO hN
              rw [if_neg hA, if_neg hO, if_neg hN]
      have hstep : tokenizeFrom (cs.length + 1 + 1) ⟨c :: cs, 0, 1, 1⟩ =
          .ok (⟨.IDENTIFIER, String.mk (c :: cs), 0, 1, 1⟩ :: (init ++ [last])) := by
        rw [tokenizeFrom, hnt, hfin]
        simp [hrec]
      refine ⟨init ++ [last], ?_⟩
      show tokenizeFrom (cs.length + 1 + 1) ⟨c :: cs, 0, 1, 1⟩ = _
      rw [hstep, htype]
    · have hfin : readIdentifierOrKeyword ⟨c :: cs, 0, 1, 1⟩ =
          .ok (⟨kt, String.mk (c :: cs), 0, 1, 1⟩,
               ⟨[], cs.length + 1, 1, cs.length + 2⟩) := by
        simp only [readIdentifierOrKeyword]
        rw [hall]
        simp [String.length, hmk]
      have hne : kt ≠ TokenType.EOF := by
        revert hmk
        unfold matchKeyword
        split
        · intro h; cases h; decide
        · split
          · intro h; cases h; decide
          · split
            · intro h; cases h; decide
            · intro h; cases h
      have htype : (if List.map Char.toLower (String.mk (c :: cs)).data = "and".data
                      then TokenType.AND
                    else if List.map Char.toLower (String.mk (c :: cs)).data = "or".data
                      then TokenType.OR
                    else if List.map Char.toLower (String.mk (c :: cs)).data = "not".data
                      then TokenType.NOT
                    else TokenType.IDENTIFIER) = kt := by
        unfold matchKeyword at hmk
        split at hmk
        · rename_i hA
          cases hmk
          rw [if_pos hA]
        · split at hmk
          · rename_i hA hO
            cases hmk
            rw [if_neg hA, if_pos hO]
          · split at hmk
            · rename_i hA hO hN
              cases hmk
              rw [if_neg hA, if_neg hO, if_pos hN]
            · exact absurd hmk (by simp)
      have hstep : tokenizeFrom (cs.length + 1 + 1) ⟨c :: cs, 0, 1, 1⟩ =
          .ok (⟨kt, String.mk (c :: cs), 0, 1, 1⟩ :: (init ++ [last])) := by
        rw [tokenizeFrom, hnt, hfin]
        simp [hrec, hne]
      refine ⟨init ++ [last], ?_⟩
      show tokenizeFrom (cs.length + 1 + 1) ⟨c :: cs, 0, 1, 1⟩ = _
      rw [hstep, htype]

/-- Closed instance of the keyword-recognition theorem at the inputs "AND"
(keyword, original case kept) discharging its hypotheses concretely. -/
theorem tokenize_keyword_recognition_witness :
    ("AND" : String) ≠ "" ∧ (∀ c ∈ ("AND" : String).data, isStopChar c = false) ∧
      ∃ rest, tokenize "AND" =
        .ok ({ type := if ("AND" : String).data.map Char.toLower = "and".data then TokenType.AND
                       else if ("AND" : String).data.map Char.toLower = "or".data then TokenType.OR
                       else if ("AND" : String).data.map Char.toLower = "not".data then TokenType.NOT
                       else TokenType.IDENTIFIER,
               value := "AND", position := 0, line := 1, column := 1 } :: rest) :=
  ⟨by decide, by decide, tokenize_keyword_recognition "AND" (by decide) (by decide)⟩

/-! ## Parser cursor safety -/

theorem WFStream_length_pos {tokens : List Token} (h : WFStream tokens) :
    0 < tokens.length := by
  obtain ⟨init, last, rfl, -, -⟩ := h
  simp

theorem WFStream_eof_iff {tokens : List Token} (h : WFStream tokens)
    (i : Nat) (hi : i < tokens.length) :
    tokens[i].type = TokenType.EOF ↔ i = tokens.length - 1 := by
  obtain ⟨init, last, rfl, hlast, hinit⟩ := h
  have hlen : (init ++ [last]).length = init.length + 1 := by simp
  rcases Nat.lt_or_ge i init.length with hlt | hge
  · have : (init ++ [last])[i] = init[i] := List.getElem_append_left hlt
    rw [this]
    constructor
    · intro he
      exact absurd he (hinit _ (init.getElem_mem hlt))
    · intro he
      omega
  · have hieq : i = init.length := by
      rw [hlen] at hi
      omega
    have : (init ++ [last])[i] = last := List.getElem_concat_length init last i hieq _
    rw [this]
    constructor
    · intro _
      omega
    · intro _
      exact hlast

theorem peek_eq_getElem {tokens : List Token} {cur : Nat} (h : cur < tokens.length) :
    peek tokens cur = some tokens[cur] := by
  simp [peek, List.getElem?_eq_getElem h]

theorem check_ne_none {tokens : List Token} {cur : Nat} (h : cur < tokens.length)
    (ty : TokenType) : check tokens cur ty ≠ none := by
  cases hb : tokens[cur].type == TokenType.EOF
  · simp [check, hasReachedEOF, peek_eq_getElem h, hb]
  · simp [check, hasReachedEOF, peek_eq_getElem h, hb]

theorem check_true {tokens : List Token} {cur : Nat} {ty : TokenType}
    (h : cur < tokens.length) (hc : check tokens cur ty = some true) :
    tokens[cur].type = ty ∧ tokens[cur].type ≠ TokenType.EOF := by
  cases hb : tokens[cur].type == TokenType.EOF
  · simp [check, hasReachedEOF, peek_eq_getElem h, hb] at hc
    exact ⟨hc, by simpa using hb⟩
  · simp [check, hasReachedEOF, peek_eq_getElem h, hb] at hc

theorem matchesAny_spec {tokens : List Token} {cur : Nat} {ty : TokenType}
    (hwf : WFStream tokens) (hcur : cur < tokens.length) :
    matchesAny tokens cur ty = some (false, cur) ∨
    (matchesAny tokens cur ty = some (true, cur + 1) ∧ cur + 1 < tokens.length ∧
     tokens[cur].type = ty) := by
  rcases hch : check tokens cur ty with _ | b
  · exact absurd hch (check_ne_none hcur ty)
  · cases b
    · left
      simp [matchesAny, hch]
    · right
      obtain ⟨hty', hne⟩ := check_true hcur hch
      have hcur' : cur + 1 < tokens.length := by
        have hiff := WFStream_eof_iff hwf cur hcur
        have hlen := WFStream_length_pos hwf
        have : cur ≠ tokens.length - 1 := fun he => hne (hiff.mpr he)
        omega
      refine ⟨?_, hcur', hty'⟩
      simp [matchesAny, hch, advance, hcur]

theorem matchesAny_advance {tokens : List Token} {cur : Nat} {ty : TokenType} {cur' : Nat}
    (h : matchesAny tokens cur ty = some (true, cur')) :
    ∃ t, peek tokens cur = some t ∧ t.type = ty ∧ t.type ≠ TokenType.EOF ∧
      cur' = advance tokens cur := by
  rcases hch : check tokens cur ty with _ | b
  · simp [matchesAny, hch] at h
  · cases b
    · simp [matchesAny, hch] at h
    · simp only [matchesAny, hch] at h
      cases h
      rcases hpk : peek tokens cur with _ | t
      · simp [check, hasReachedEOF, hpk] at hch
      · refine ⟨t, rfl, ?_, ?_, rfl⟩
        · cases hb : t.type == TokenType.EOF
          · simp [check, hasReachedEOF, hpk, hb] at hch
            exact hch
          · simp [check, hasReachedEOF, hpk, hb] at hch
        · cases hb : t.type == TokenType.EOF
          · simpa using hb
          · simp [check, hasReachedEOF, hpk, hb] at hch

theorem matchesAny_no_move {tokens : List Token} {cur : Nat} {ty : TokenType} {cur' : Nat}
    (h : matchesAny tokens cur ty = some (false, cur')) : cur' = cur := by
  rcases hch : check tokens cur ty with _ | b
  · simp [matchesAny, hch] at h
  · cases b
    · simp only [matchesAny, hch] at h
      cases h
      rfl
    · simp [matchesAny, hch] at h

theorem consume_ok_not_eof {tokens : List Token} {cur : Nat} {ty : TokenType} {msg : String}
    {t : Token} {cur' : Nat} (h : consume tokens cur ty msg = .ok t cur') :
    t.type = ty ∧ t.type ≠ TokenType.EOF := by
  rcases hch : check tokens cur ty with _ | b
  · simp [consume, hch] at h
  · cases b
    · rcases hpk : peek tokens cur with _ | t0
      · simp [consume, hch, hpk] at h
      · simp [consume, hch, hpk] at h
    · rcases hpk : peek tokens cur with _ | t0
      · simp [consume, hch, hpk] at h
      · simp only [consume, hch, hpk] at h
        have ht : t0 = t := by cases h; rfl
        subst ht
        cases hb : t0.type == TokenType.EOF
        · simp [check, hasReachedEOF, hpk, hb] at hch
          exact ⟨hch, by simpa using hb⟩
        · simp [check, hasReachedEOF, hpk, hb] at hch

theorem consume_spec {tokens : List Token} {cur : Nat} {ty : TokenType} {msg : String}
    (hwf : WFStream tokens) (hcur : cur < tokens.length) :
    consume tokens cur ty msg ≠ .crash ∧
    ∀ t cur', consume tokens cur ty msg = .ok t cur' → cur' < tokens.length := by
  rcases hch : check tokens cur ty with _ | b
  · exact absurd hch (check_ne_none hcur ty)
  · cases b
    · constructor
      · simp [consume, hch, peek_eq_getElem hcur]
      · intro t cur' h
        simp [consume, hch, peek_eq_getElem hcur] at h
    · obtain ⟨hty', hne⟩ := check_true hcur hch
      have hcur' : cur + 1 < tokens.length := by
        have hiff := WFStream_eof_iff hwf cur hcur
        have : cur ≠ tokens.length - 1 := fun he => hne (hiff.mpr he)
        omega
      constructor
      · simp [consume, hch, peek_eq_getElem hcur]
      · intro t cur' h
        simp only [consume, hch, peek_eq_getElem hcur] at h
        cases h
        simpa [advance, hcur] using hcur'

theorem safeR_error {tokens : List Token} (er : ParseError) :
    SafeR tokens (.error er) :=
  ⟨(fun h => nomatch h), (fun _ _ h => nomatch h)⟩

theorem safeR_fuelOut {tokens : List Token} : SafeR tokens (.fuelOut : PResult Expression) :=
  ⟨(fun h => nomatch h), (fun _ _ h => nomatch h)⟩

theorem safeR_ok {tokens : List Token} {e : Expression} {cur : Nat}
    (h : cur < tokens.length) : SafeR tokens (.ok e cur) :=
  ⟨(fun h2 => nomatch h2), (fun _ _ heq => by cases heq; exact h)⟩

/-- The combined cursor invariant of all six grammar rules, for every fuel:
no rule ever crashes (every `#peek` finds a token) and a successful rule
call leaves the cursor at or before the index of the EOF token. -/
theorem parserSafe (tokens : List Token) (hwf : WFStream tokens) (fuel : Nat) :
    (∀ cur, cur < tokens.length → SafeR tokens (orExpression fuel tokens cur)) ∧
    (∀ left cur, cur < tokens.length → SafeR tokens (orLoop fuel tokens left cur)) ∧
    (∀ cur, cur < tokens.length → SafeR tokens (andExpression fuel tokens cur)) ∧
    (∀ left cur, cur < tokens.length → SafeR tokens (andLoop fuel tokens left cur)) ∧
    (∀ cur, cur < tokens.length → SafeR tokens (notExpression fuel tokens cur)) ∧
    (∀ cur, cur < tokens.length → SafeR tokens (primary fuel tokens cur)) := by
  induction fuel with
  | zero =>
    exact ⟨fun _ _ => safeR_fuelOut, fun _ _ _ => safeR_fuelOut, fun _ _ => safeR_fuelOut,
           fun _ _ _ => safeR_fuelOut, fun _ _ => safeR_fuelOut, fun _ _ => safeR_fuelOut⟩
  | succ n ih =>
    obtain ⟨ihOr, ihOrL, ihAnd, ihAndL, ihNot, ihPrim⟩ := ih
    have hPrim : ∀ cur, cur < tokens.length → SafeR tokens (primary (n + 1) tokens cur) := by
      intro cur hcur
      rcases @matchesAny_spec tokens cur .LEFT_PAREN hwf hcur with hm | ⟨hm, hcur1, -⟩
      · simp only [primary, hm]
        rcases hch : check tokens cur .IDENTIFIER with _ | b
        · exact absurd hch (check_ne_none hcur _)
        · cases b
          · simp only [hch, peek_eq_getElem hcur]
            split_ifs <;> exact safeR_error _
          · simp only [hch]
            cases hcons : consume tokens cur .IDENTIFIER "Expecte identifier" with
            | ok t cur1 =>
              have hb := (consume_spec hwf hcur).2 _ _ hcons
              simp only [hcons]
              exact safeR_ok hb
            | error er => simp only [hcons]; exact safeR_error er
            | crash => exact absurd hcons (consume_spec hwf hcur).1
            | fuelOut => simp only [hcons]; exact safeR_fuelOut
      · simp only [primary, hm]
        cases hOr : orExpression n tokens (cur + 1) with
        | ok e cur2 =>
          have hb2 := (ihOr _ hcur1).2 _ _ hOr
          simp only [hOr]
          cases hcons : consume tokens cur2 .RIGHT_PAREN "Expected ')' after expression" with
          | ok t cur3 =>
            have hb3 := (consume_spec hwf hb2).2 _ _ hcons
            simp only [hcons]
            exact safeR_ok hb3
          | error er => simp only [hcons]; exact safeR_error er
          | crash => exact absurd hcons (consume_spec hwf hb2).1
          | fuelOut => simp only [hcons]; exact safeR_fuelOut
        | error er => simp only [hOr]; exact safeR_error er
        | crash => exact absurd hOr (ihOr _ hcur1).1
        | fuelOut => simp only [hOr]; exact safeR_fuelOut
    have hNot : ∀ cur, cur < tokens.length → SafeR tokens (notExpression (n + 1) tokens cur) := by
      intro cur hcur
      rcases @matchesAny_spec tokens cur .NOT hwf hcur with hm | ⟨hm, hcur1, -⟩
      · simp only [notExpression, hm]
        exact ihPrim cur hcur
      · simp only [notExpression, hm]
        cases hN : notExpression n tokens (cur + 1) with
        | ok e cur2 =>
          have hb := (ihNot _ hcur1).2 _ _ hN
          simp only [hN]
          exact safeR_ok hb
        | error er => simp only [hN]; exact safeR_error er
        | crash => exact absurd hN (ihNot _ hcur1).1
        | fuelOut => simp only [hN]; exact safeR_fuelOut
    have hAndL : ∀ left cur, cur < tokens.length →
        SafeR tokens (andLoop (n + 1) tokens left cur) := by
      intro left cur hcur
      rcases @matchesAny_spec tokens cur .AND hwf hcur with hm | ⟨hm, hcur1, -⟩
      · simp only [andLoop, hm]
        exact safeR_ok hcur
      · simp only [andLoop, hm]
        cases hN : notExpression n tokens (cur + 1) with
        | ok right cur2 =>
          have hb := (ihNot _ hcur1).2 _ _ hN
          simp only [hN]
          exact ihAndL (.and left right) cur2 hb
        | error er => simp only [hN]; exact safeR_error er
        | crash => exact absurd hN (ihNot _ hcur1).1
        | fuelOut => simp only [hN]; exact safeR_fuelOut
    have hAnd : ∀ cur, cur < tokens.length →
        SafeR tokens (andExpression (n + 1) tokens cur) := by
      intro cur hcur
      cases hN : notExpression n tokens cur with
      | ok left cur1 =>
        have hb := (ihNot _ hcur).2 _ _ hN
        simp only [andExpression, hN]
        exact ihAndL left cur1 hb
      | error er => simp only [andExpression, hN]; exact safeR_error er
      | crash => exact absurd hN (ihNot _ hcur).1
      | fuelOut => simp only [andExpression, hN]; exact safeR_fuelOut
    have hOrL : ∀ left cur, cur < tokens.length →
        SafeR tokens (orLoop (n + 1) tokens left cur) := by
      intro left cur hcur
      rcases @matchesAny_spec tokens cur .OR hwf hcur with hm | ⟨hm, hcur1, -⟩
      · simp only [orLoop, hm]
        exact safeR_ok hcur
      · simp only [orLoop, hm]
        cases hA : andExpression n tokens (cur + 1) with
        | ok right cur2 =>
          have hb := (ihAnd _ hcur1).2 _ _ hA
          simp only [hA]
          exact ihOrL (.or left right) cur2 hb
        | error er => simp only [hA]; exact safeR_error er
        | crash => exact absurd hA (ihAnd _ hcur1).1
        | fuelOut => simp only [hA]; exact safeR_fuelOut
    have hOr : ∀ cur, cur < tokens.length →
        SafeR tokens (orExpression (n + 1) tokens cur) := by
      intro cur hcur
      cases hA : andExpression n tokens cur with
      | ok left cur1 =>
        have hb := (ihAnd _ hcur).2 _ _ hA
        simp only [orExpression, hA]
        exact ihOrL left cur1 hb
      | error er => simp only [orExpression, hA]; exact safeR_error er
      | crash => exact absurd hA (ihAnd _ hcur).1
      | fuelOut => simp only [orExpression, hA]; exact safeR_fuelOut
    exact ⟨hOr, hOrL, hAnd, hAndL, hNot, hPrim⟩

/-- The body of `Parser.parse` never hits the non-null assertion on a
well-formed token stream. -/
theorem runParse_no_crash (tokens : List Token) (hwf : WFStream tokens) :
    runParse tokens ≠ .crash := by
  have hlen := WFStream_length_pos hwf
  have hpk0 := peek_eq_getElem hlen
  unfold runParse
  simp only [hasReachedEOF, hpk0, Option.map_some']
  cases hb : tokens[0].type == TokenType.EOF
  · simp only [hb]
    cases hE : expression (parseFuel tokens) tokens 0 with
    | ok e cur =>
      have hcb := ((parserSafe tokens hwf (parseFuel tokens)).1 0 hlen).2 _ _ hE
      have hpkc := peek_eq_getElem hcb
      simp only [hE, hpkc, Option.map_some']
      cases hb2 : tokens[cur].type == TokenType.EOF
      · simp only [hb2]
        exact fun h => nomatch h
      · simp only [hb2]
        exact fun h => nomatch h
    | error er => simp only [hE]; exact fun h => nomatch h
    | crash => exact absurd hE ((parserSafe tokens hwf (parseFuel tokens)).1 0 hlen).1
    | fuelOut => simp only [hE]; exact fun h => nomatch h
  · simp only [hb]
    exact fun h => nomatch h

/-- C10: On every well-formed token stream (as the tokenizer produces, a
single trailing EOF): the match/consume primitives advance the cursor only
past a token of the requested type, which is never the EOF token (at EOF,
`#check` answers false for every type); a successful grammar-rule call keeps
the cursor at or before the EOF index and no rule ever crashes on a missing
token; and the parser entry never hits the non-null `#peek` assertions. -/
theorem parser_cursor_safety (tokens : List Token) (hwf : WFStream tokens) :
    (∀ cur ty cur', matchesAny tokens cur ty = some (true, cur') →
      ∃ t, peek tokens cur = some t ∧ t.type = ty ∧ t.type ≠ TokenType.EOF ∧
        cur' = advance tokens cur) ∧
    (∀ cur ty cur', matchesAny tokens cur ty = some (false, cur') → cur' = cur) ∧
    (∀ cur ty msg t cur', consume tokens cur ty msg = .ok t cur' →
      t.type = ty ∧ t.type ≠ TokenType.EOF) ∧
    (∀ fuel cur, cur < tokens.length →
      orExpression fuel tokens cur ≠ .crash ∧
      (∀ e cur', orExpression fuel tokens cur = .ok e cur' → cur' < tokens.length)) ∧
    runParse tokens ≠ .crash := by
  refine ⟨fun cur ty cur' h => matchesAny_advance h,
          fun cur ty cur' h => matchesAny_no_move h,
          fun cur ty msg t cur' h => consume_ok_not_eof h,
          fun fuel cur hcur => ⟨((parserSafe tokens hwf fuel).1 cur hcur).1,
                               ((parserSafe tokens hwf fuel).1 cur hcur).2⟩,
          runParse_no_crash tokens hwf⟩

/-- Closed instance of the cursor-safety theorem at the token stream of the
input `a`, discharging the well-formedness hypothesis concretely. -/
theorem parser_cursor_safety_witness :
    WFStream [⟨.IDENTIFIER, "a", 0, 1, 1⟩, ⟨.EOF, "", 1, 1, 2⟩] ∧
    runParse [⟨.IDENTIFIER, "a", 0, 1, 1⟩, ⟨.EOF, "", 1, 1, 2⟩] ≠ .crash := by
  have hwf : WFStream [⟨.IDENTIFIER, "a", 0, 1, 1⟩, ⟨.EOF, "", 1, 1, 2⟩] :=
    ⟨[⟨.IDENTIFIER, "a", 0, 1, 1⟩], ⟨.EOF, "", 1, 1, 2⟩, rfl, rfl, by decide⟩
  exact ⟨hwf, (parser_cursor_safety _ hwf).2.2.2.2⟩

end Andor
